import Mathlib

/-!
# Dex file access tracking registrar

A shallow embedding of `runtime/dex_file_tracking_registrar.cc`.

* Addresses and `size_t` values are natural numbers; a null pointer is `none`.
* The registrar's two fields (`dex_file_`, `range_values_`) are passed explicitly.
* The memory tool is a state: the trace of primitive calls made so far together with a
  shadow map from byte address to "accessible".
* `LOG(ERROR)` appends one line to a list of log lines.
* The two compile-time constants `kDexFileAccessTracking` and `kCurrentTrackingSystem`
  ("intended for local changes only") are arguments of `SetDexSections`.
-/

namespace DexTracking

/-! ## Data model -/

/-- The configurations of poisoning certain sections of a dex file (the source enum). -/
inductive DexTrackingType where
  | kWholeDexTracking
  | kCodeItemTracking
  | kCodeItemNonInsnsTracking
  | kCodeItemNonInsnsNoClinitTracking
  | kCustomTracking
  deriving DecidableEq, Repr

/-- Modelled from the spec: the code item record of the dex file header, which the source
only uses. `addr` is the value of the `code_item` pointer, `code_item_size` what
`DexFile::GetCodeItemSize` returns for it, `insns_` the address `&code_item->insns_`, and
`insns_size_in_code_units_` the stored unsigned 32-bit unit count. -/
structure CodeItem where
  addr : Nat
  code_item_size : Nat
  insns_ : Nat
  insns_size_in_code_units_ : Nat
  deriving DecidableEq, Repr

/-- Modelled from the spec: one encoded method of a class-data block, as the class-data
iterator presents it: its member index and its code item (`none` for a null code item). -/
structure ClassDataMethod where
  method_idx : Nat
  code_item : Option CodeItem
  deriving DecidableEq, Repr

/-- Modelled from the spec: a class-data block in the order the class-data iterator walks it:
static fields, instance fields, direct methods, virtual methods. Fields carry nothing the
registrar reads, so only their numbers are kept. -/
structure ClassData where
  static_fields_size : Nat
  instance_fields_size : Nat
  direct_methods : List ClassDataMethod
  virtual_methods : List ClassDataMethod
  deriving DecidableEq, Repr

/-- Modelled from the spec: a class definition record; `class_data` is `none` when the class
has no class-data block (`GetClassData` returns a null pointer). -/
structure ClassDef where
  class_data : Option ClassData
  deriving DecidableEq, Repr

/-- Modelled from the spec: the parsed container. `method_names i` is the name
`GetMethodName (GetMethodId i)` of the method with member index `i`. -/
structure DexFile where
  location : String
  begin_ : Nat
  size_ : Nat
  class_defs : List ClassDef
  method_names : Nat → String

/-- Number of class definitions of the container. -/
def DexFile.NumClassDefs (d : DexFile) : Nat := d.class_defs.length

/-- Indexed access to the class definitions (an index out of range yields a record
without class data; the loops of the registrar never ask for one). -/
def DexFile.GetClassDef (d : DexFile) (idx : Nat) : ClassDef := d.class_defs.getD idx ⟨none⟩

/-- Nullable class-data lookup of a class definition. -/
def DexFile.GetClassData (_d : DexFile) (cd : ClassDef) : Option ClassData := cd.class_data

/-- Byte size of a code item, as the parser reports it. -/
def DexFile.GetCodeItemSize (code_item : CodeItem) : Nat := code_item.code_item_size

/-- Name of the method with the given member index. -/
def DexFile.GetMethodName (d : DexFile) (member_index : Nat) : String := d.method_names member_index

/-! ## The class-data iterator -/

/-- Modelled from the spec: the class-data iterator of the parser, a position in the member
sequence of one class-data block. -/
structure ClassDataItemIterator where
  class_data : ClassData
  pos_ : Nat
  deriving DecidableEq, Repr

namespace ClassDataItemIterator

/-- Position just after the static fields. -/
def EndOfStaticFieldsPos (it : ClassDataItemIterator) : Nat := it.class_data.static_fields_size

/-- Position just after the instance fields. -/
def EndOfInstanceFieldsPos (it : ClassDataItemIterator) : Nat :=
  it.EndOfStaticFieldsPos + it.class_data.instance_fields_size

/-- Position just after the direct methods. -/
def EndOfDirectMethodsPos (it : ClassDataItemIterator) : Nat :=
  it.EndOfInstanceFieldsPos + it.class_data.direct_methods.length

/-- Position just after the virtual methods. -/
def EndOfVirtualMethodsPos (it : ClassDataItemIterator) : Nat :=
  it.EndOfDirectMethodsPos + it.class_data.virtual_methods.length

/-- The iterator stands on a direct method. -/
def HasNextDirectMethod (it : ClassDataItemIterator) : Bool :=
  decide (it.EndOfInstanceFieldsPos ≤ it.pos_ ∧ it.pos_ < it.EndOfDirectMethodsPos)

/-- The iterator stands on a virtual method. -/
def HasNextVirtualMethod (it : ClassDataItemIterator) : Bool :=
  decide (it.EndOfDirectMethodsPos ≤ it.pos_ ∧ it.pos_ < it.EndOfVirtualMethodsPos)

/-- Move past every static and instance field. -/
def SkipAllFields (it : ClassDataItemIterator) : ClassDataItemIterator :=
  { it with pos_ := max it.pos_ it.EndOfInstanceFieldsPos }

/-- Advance by one member. -/
def Next (it : ClassDataItemIterator) : ClassDataItemIterator :=
  { it with pos_ := it.pos_ + 1 }

/-- The method the iterator stands on, if it stands on one. -/
def method_ (it : ClassDataItemIterator) : Option ClassDataMethod :=
  if it.EndOfInstanceFieldsPos ≤ it.pos_ then
    (it.class_data.direct_methods ++ it.class_data.virtual_methods)[it.pos_ -
      it.EndOfInstanceFieldsPos]?
  else none

/-- Code item of the current method; `none` is the null pointer. -/
def GetMethodCodeItem (it : ClassDataItemIterator) : Option CodeItem :=
  it.method_.bind (fun m => m.code_item)

/-- Member index of the current method. -/
def GetMemberIndex (it : ClassDataItemIterator) : Nat :=
  match it.method_ with
  | some m => m.method_idx
  | none => 0

end ClassDataItemIterator

/-! ## The registrar -/

/-- One pending entry `(begin, size, should_poison)` of `range_values_`. -/
abbrev RangeValue := Nat × Nat × Bool

/-- The deque `range_values_`: `push_back` appends at the end, `front` is the head. -/
abbrev RangeValues := List RangeValue

/-- The registrar object: the container pointer and the pending ranges. -/
structure DexFileTrackingRegistrar where
  dex_file_ : Option DexFile
  range_values_ : RangeValues

/-- The loop `while (cdit.HasNextDirectMethod()) { body; cdit.Next(); }` shared by the three
traversals. The counter bounds the number of iterations; `whileHasNextDirectMethod` starts it
at the number of positions left before the end of the direct methods, and
`whileHasNextDirectMethod_exit` shows that the loop always leaves through its condition. -/
def whileLoop (body : ClassDataItemIterator → RangeValues → RangeValues) :
    Nat → ClassDataItemIterator → RangeValues → ClassDataItemIterator × RangeValues
  | 0, cdit, range_values_ => (cdit, range_values_)
  | fuel + 1, cdit, range_values_ =>
    if cdit.HasNextDirectMethod then
      whileLoop body fuel cdit.Next (body cdit range_values_)
    else (cdit, range_values_)

/-- The direct-method loop, run from the iterator `cdit`. -/
def whileHasNextDirectMethod (body : ClassDataItemIterator → RangeValues → RangeValues)
    (cdit : ClassDataItemIterator) (range_values_ : RangeValues) :
    ClassDataItemIterator × RangeValues :=
  whileLoop body (cdit.EndOfDirectMethodsPos - cdit.pos_) cdit range_values_

/-- The loop `for (classdef_ctr = 0; classdef_ctr < NumClassDefs(); ++classdef_ctr)` with the
class-data null check and the iterator set-up shared by the three traversals. -/
def forEachClassDef (dex_file_ : DexFile)
    (body : ClassDataItemIterator → RangeValues → RangeValues)
    (range_values_ : RangeValues) : RangeValues :=
  (List.range dex_file_.NumClassDefs).foldl
    (fun q classdef_ctr =>
      let cd := dex_file_.GetClassDef classdef_ctr
      match dex_file_.GetClassData cd with
      | none => q
      | some class_data =>
        let cdit := (ClassDataItemIterator.mk class_data 0).SkipAllFields
        (whileHasNextDirectMethod body cdit q).2)
    range_values_

/-- Source `SetDexFileRegistration`: one entry for the whole container. -/
def SetDexFileRegistration (dex_file_ : DexFile) (should_poison : Bool)
    (range_values_ : RangeValues) : RangeValues :=
  let dex_file_begin := dex_file_.begin_
  let dex_file_size := dex_file_.size_
  range_values_ ++ [(dex_file_begin, dex_file_size, should_poison)]

/-- Loop body of `SetAllCodeItemRegistration`. -/
def SetAllCodeItemRegistration.body (should_poison : Bool)
    (cdit : ClassDataItemIterator) (range_values_ : RangeValues) : RangeValues :=
  match cdit.GetMethodCodeItem with
  | some code_item =>
    let code_item_begin := code_item.addr
    let code_item_size := DexFile.GetCodeItemSize code_item
    range_values_ ++ [(code_item_begin, code_item_size, should_poison)]
  | none => range_values_

/-- Source `SetAllCodeItemRegistration`. -/
def SetAllCodeItemRegistration (dex_file_ : DexFile) (should_poison : Bool)
    (range_values_ : RangeValues) : RangeValues :=
  forEachClassDef dex_file_ (SetAllCodeItemRegistration.body should_poison) range_values_

/-- The computation `code_item->insns_size_in_code_units_ * 2`: the operand is an unsigned
32-bit value and the constant an `int`, so the product is an unsigned 32-bit product; it is
widened to `size_t` afterwards. -/
def insns_size (code_item : CodeItem) : Nat :=
  (code_item.insns_size_in_code_units_ * 2) % 2 ^ 32

/-- Loop body of `SetAllInsnsRegistration`. -/
def SetAllInsnsRegistration.body (should_poison : Bool)
    (cdit : ClassDataItemIterator) (range_values_ : RangeValues) : RangeValues :=
  match cdit.GetMethodCodeItem with
  | some code_item =>
    let insns_begin := code_item.insns_
    range_values_ ++ [(insns_begin, insns_size code_item, should_poison)]
  | none => range_values_

/-- Source `SetAllInsnsRegistration`. -/
def SetAllInsnsRegistration (dex_file_ : DexFile) (should_poison : Bool)
    (range_values_ : RangeValues) : RangeValues :=
  forEachClassDef dex_file_ (SetAllInsnsRegistration.body should_poison) range_values_

/-- Loop body of `SetCodeItemRegistration`; `strcmp (a, b) == 0` is equality of the names. -/
def SetCodeItemRegistration.body (dex_file_ : DexFile) (class_name : String)
    (should_poison : Bool) (cdit : ClassDataItemIterator) (range_values_ : RangeValues) :
    RangeValues :=
  let methodid_name := dex_file_.GetMethodName cdit.GetMemberIndex
  match cdit.GetMethodCodeItem with
  | some code_item =>
    if methodid_name = class_name then
      let code_item_begin := code_item.addr
      let code_item_size := DexFile.GetCodeItemSize code_item
      range_values_ ++ [(code_item_begin, code_item_size, should_poison)]
    else range_values_
  | none => range_values_

/-- Source `SetCodeItemRegistration`. -/
def SetCodeItemRegistration (dex_file_ : DexFile) (class_name : String) (should_poison : Bool)
    (range_values_ : RangeValues) : RangeValues :=
  forEachClassDef dex_file_ (SetCodeItemRegistration.body dex_file_ class_name should_poison)
    range_values_

/-- The diagnostic line of `SetDexSections`. -/
def logLine (dex_file_ : DexFile) : String :=
  "RegisterDexFile: " ++ (dex_file_.location ++ " @ ") ++
    String.mk (Nat.toDigits 16 dex_file_.begin_)

/-- Source `SetDexSections`, with the two compile-time constants as arguments and the log
passed through. -/
def SetDexSections (kDexFileAccessTracking : Bool) (kCurrentTrackingSystem : DexTrackingType)
    (r : DexFileTrackingRegistrar) (log : List String) :
    DexFileTrackingRegistrar × List String :=
  match kDexFileAccessTracking, r.dex_file_ with
  | true, some dex_file_ =>
    let log := log ++ [logLine dex_file_]
    match kCurrentTrackingSystem with
    | .kWholeDexTracking =>
      (⟨r.dex_file_, SetDexFileRegistration dex_file_ true r.range_values_⟩, log)
    | .kCodeItemTracking =>
      (⟨r.dex_file_, SetAllCodeItemRegistration dex_file_ true r.range_values_⟩, log)
    | .kCodeItemNonInsnsTracking =>
      let q1 := SetAllCodeItemRegistration dex_file_ true r.range_values_
      let q2 := SetAllInsnsRegistration dex_file_ false q1
      (⟨r.dex_file_, q2⟩, log)
    | .kCodeItemNonInsnsNoClinitTracking =>
      let q1 := SetAllCodeItemRegistration dex_file_ true r.range_values_
      let q2 := SetAllInsnsRegistration dex_file_ false q1
      let q3 := SetCodeItemRegistration dex_file_ "<clinit>" false q2
      (⟨r.dex_file_, q3⟩, log)
    | .kCustomTracking => (r, log)
  | _, _ => (r, log)

/-! ## The memory tool and the application of the ranges -/

/-- One call of the memory-tool primitive. -/
inductive MemoryToolCall where
  | MAKE_NOACCESS (p : Nat) (size : Nat)
  | MAKE_DEFINED (p : Nat) (size : Nat)
  deriving DecidableEq, Repr

/-- State of the memory tool: the calls made so far, oldest first, and the shadow memory
(`accessible a = true` when byte `a` may be accessed). -/
structure MemoryTool where
  calls : List MemoryToolCall
  accessible : Nat → Bool

/-- Modelled from the spec: the primitive "mark range no-access" of the memory tool header;
it overwrites the shadow state of `[p, p + size)`. -/
def MEMORY_TOOL_MAKE_NOACCESS (p size : Nat) (m : MemoryTool) : MemoryTool :=
  { calls := m.calls ++ [MemoryToolCall.MAKE_NOACCESS p size]
    accessible := fun a => if p ≤ a ∧ a < p + size then false else m.accessible a }

/-- Modelled from the spec: the primitive "mark range defined" of the memory tool header;
it overwrites the shadow state of `[p, p + size)`. -/
def MEMORY_TOOL_MAKE_DEFINED (p size : Nat) (m : MemoryTool) : MemoryTool :=
  { calls := m.calls ++ [MemoryToolCall.MAKE_DEFINED p size]
    accessible := fun a => if p ≤ a ∧ a < p + size then true else m.accessible a }

/-- Source `SetRegistrationRange`. -/
def SetRegistrationRange (begin_ size : Nat) (should_poison : Bool) (m : MemoryTool) :
    MemoryTool :=
  if should_poison then MEMORY_TOOL_MAKE_NOACCESS begin_ size m
  else MEMORY_TOOL_MAKE_DEFINED begin_ size m

/-- The drain loop of `SetCurrentRanges` on the deque: while it is not empty, apply its front
entry and pop it. Returns the deque and the memory tool at loop exit. -/
def SetCurrentRanges.loop : RangeValues → MemoryTool → RangeValues × MemoryTool
  | [], m => ([], m)
  | current_range :: rest, m =>
    SetCurrentRanges.loop rest
      (SetRegistrationRange current_range.1 current_range.2.1 current_range.2.2 m)

/-- Source `SetCurrentRanges`. -/
def SetCurrentRanges (r : DexFileTrackingRegistrar) (m : MemoryTool) :
    DexFileTrackingRegistrar × MemoryTool :=
  let res := SetCurrentRanges.loop r.range_values_ m
  (⟨r.dex_file_, res.1⟩, res.2)

/-- Source `RegisterDexFile`: a fresh registrar, `SetDexSections`, `SetCurrentRanges`.
Returns the registrar as it is when the function ends, the log and the memory tool. -/
def RegisterDexFile (kDexFileAccessTracking : Bool) (kCurrentTrackingSystem : DexTrackingType)
    (dex_file : Option DexFile) (log : List String) (m : MemoryTool) :
    DexFileTrackingRegistrar × List String × MemoryTool :=
  let dex_tracking_registrar : DexFileTrackingRegistrar :=
    { dex_file_ := dex_file, range_values_ := [] }
  let s := SetDexSections kDexFileAccessTracking kCurrentTrackingSystem dex_tracking_registrar log
  let a := SetCurrentRanges s.1 m
  (a.1, s.2, a.2)

/-! ## Vocabulary of the specification -/

/-- The methods of a class definition that the traversal of the registrar visits: the direct
methods of its class data, none when the class data is null. -/
def ClassDef.traversedMethods (cd : ClassDef) : List ClassDataMethod :=
  match cd.class_data with
  | none => []
  | some class_data => class_data.direct_methods

/-- The methods visited by a traversal of the container, in traversal order. -/
def DexFile.traversedMethods (d : DexFile) : List ClassDataMethod :=
  d.class_defs.flatMap ClassDef.traversedMethods

/-- The traversed code blocks: the non-null code items of the traversed methods. -/
def DexFile.traversedCodeItems (d : DexFile) : List CodeItem :=
  d.traversedMethods.filterMap (fun m => m.code_item)

/-- Every method of a class definition, direct and virtual; none when the class data is
null. -/
def ClassDef.allMethods (cd : ClassDef) : List ClassDataMethod :=
  match cd.class_data with
  | none => []
  | some class_data => class_data.direct_methods ++ class_data.virtual_methods

/-- Number of methods with a non-null code block, counted over all class definitions whose
class data is non-null. -/
def DexFile.numMethodsWithCode (d : DexFile) : Nat :=
  ((d.class_defs.flatMap ClassDef.allMethods).filter (fun m => m.code_item.isSome)).length

/-- Byte `a` lies in the range `[p, p + size)`. -/
def InRange (a p size : Nat) : Prop := p ≤ a ∧ a < p + size

instance (a p size : Nat) : Decidable (InRange a p size) := by
  unfold InRange; infer_instance

/-- The primitive call that `SetRegistrationRange` makes for one pending entry. -/
def callOf (e : RangeValue) : MemoryToolCall :=
  if e.2.2 then MemoryToolCall.MAKE_NOACCESS e.1 e.2.1 else MemoryToolCall.MAKE_DEFINED e.1 e.2.1

/-- What the code-item pass appends for one visited method. -/
def codeItemEntry (should_poison : Bool) (m : ClassDataMethod) : RangeValues :=
  match m.code_item with
  | some c => [(c.addr, c.code_item_size, should_poison)]
  | none => []

/-- What the instruction pass appends for one visited method. -/
def insnsEntry (should_poison : Bool) (m : ClassDataMethod) : RangeValues :=
  match m.code_item with
  | some c => [(c.insns_, insns_size c, should_poison)]
  | none => []

/-- What the named pass appends for one visited method. -/
def namedEntry (d : DexFile) (class_name : String) (should_poison : Bool)
    (m : ClassDataMethod) : RangeValues :=
  match m.code_item with
  | some c =>
    if d.method_names m.method_idx = class_name then [(c.addr, c.code_item_size, should_poison)]
    else []
  | none => []

/-! ## Concrete containers -/

/-- Scenario B of the specification: two classes with one direct method each; code blocks of
40 and 64 bytes with 10 and 20 instruction units. -/
def scenarioB : DexFile :=
  { location := "scenarioB.dex", begin_ := 4096, size_ := 1024,
    class_defs :=
      [⟨some ⟨0, 0, [⟨0, some ⟨4200, 40, 4216, 10⟩⟩], []⟩⟩,
       ⟨some ⟨0, 0, [⟨1, some ⟨4300, 64, 4316, 20⟩⟩], []⟩⟩],
    method_names := fun _ => "run" }

/-- A container whose only method is a virtual method with a code block. -/
def virtualOnly : DexFile :=
  { location := "virtualOnly.dex", begin_ := 4096, size_ := 1024,
    class_defs := [⟨some ⟨0, 0, [], [⟨0, some ⟨4200, 40, 4216, 10⟩⟩]⟩⟩],
    method_names := fun _ => "run" }

/-- A container with one code block whose stored unit count is `2 ^ 31`. -/
def wideInsns : DexFile :=
  { location := "wideInsns.dex", begin_ := 4096, size_ := 4294968320,
    class_defs := [⟨some ⟨0, 0, [⟨0, some ⟨4200, 4294967312, 4216, 2147483648⟩⟩], []⟩⟩],
    method_names := fun _ => "run" }

/-- A container with a class initializer and one further direct method. -/
def withClinit : DexFile :=
  { location := "withClinit.dex", begin_ := 4096, size_ := 1024,
    class_defs :=
      [⟨some ⟨1, 2, [⟨0, some ⟨4200, 40, 4216, 10⟩⟩, ⟨1, some ⟨4300, 64, 4316, 20⟩⟩], []⟩⟩],
    method_names := fun i => if i = 0 then "<clinit>" else "run" }

/-- A memory tool that has not been called yet and whose shadow marks every byte no-access. -/
def freshNoAccess : MemoryTool := { calls := [], accessible := fun _ => false }

/-- A memory tool that has not been called yet and whose shadow marks every byte accessible. -/
def freshAccessible : MemoryTool := { calls := [], accessible := fun _ => true }

/-- Scenario A of the specification: one class whose class data holds a field and two
methods, none of them with a code block. -/
def scenarioA : DexFile :=
  { location := "scenarioA.dex", begin_ := 8192, size_ := 512,
    class_defs := [⟨some ⟨1, 0, [⟨0, none⟩], [⟨1, none⟩]⟩⟩],
    method_names := fun _ => "run" }

/-! ## The drain loop, iteration by iteration -/

/-- One execution of the body of the loop of `SetCurrentRanges` on a non-empty deque: read
the front entry, call `SetRegistrationRange` on it, pop it. (On an empty deque the body is
not run; the state is returned as it is.) -/
def SetCurrentRanges.body (range_values_ : RangeValues) (m : MemoryTool) :
    RangeValues × MemoryTool :=
  match range_values_ with
  | [] => ([], m)
  | current_range :: rest =>
    (rest, SetRegistrationRange current_range.1 current_range.2.1 current_range.2.2 m)

/-- State of the loop of `SetCurrentRanges` after at most `k` iterations: each iteration
tests `!range_values_.empty()` and, when it holds, runs the body once. -/
def SetCurrentRanges.iterations : Nat → RangeValues → MemoryTool → RangeValues × MemoryTool
  | 0, range_values_, m => (range_values_, m)
  | k + 1, range_values_, m =>
    if range_values_.isEmpty then (range_values_, m)
    else
      SetCurrentRanges.iterations k (SetCurrentRanges.body range_values_ m).1
        (SetCurrentRanges.body range_values_ m).2

/-! ## The traversal loops -/

/-- Generic form of a loop body: it appends entries computed from the current method. -/
def emits (body : ClassDataItemIterator → RangeValues → RangeValues)
    (g : ClassDataMethod → RangeValues) : Prop :=
  ∀ (cdit : ClassDataItemIterator) (q : RangeValues) (m : ClassDataMethod),
    cdit.method_ = some m → body cdit q = q ++ g m

theorem method_at_direct (cd : ClassData) (i : Nat) (h : i < cd.direct_methods.length) :
    (ClassDataItemIterator.mk cd (cd.static_fields_size + cd.instance_fields_size + i)).method_
      = some (cd.direct_methods[i]) := by
  simp [ClassDataItemIterator.method_, ClassDataItemIterator.EndOfInstanceFieldsPos,
    ClassDataItemIterator.EndOfStaticFieldsPos, List.getElem?_append_left h]

theorem whileLoop_direct (cd : ClassData)
    (body : ClassDataItemIterator → RangeValues → RangeValues)
    (g : ClassDataMethod → RangeValues) (hb : emits body g) :
    ∀ (fuel i : Nat) (q : RangeValues), i ≤ cd.direct_methods.length →
      cd.direct_methods.length - i ≤ fuel →
      whileLoop body fuel ⟨cd, cd.static_fields_size + cd.instance_fields_size + i⟩ q
        = (⟨cd, cd.static_fields_size + cd.instance_fields_size + cd.direct_methods.length⟩,
            q ++ (cd.direct_methods.drop i).flatMap g) := by
  intro fuel
  induction fuel with
  | zero =>
    intro i q hi hf
    have : i = cd.direct_methods.length := by omega
    subst this
    simp [whileLoop]
  | succ fuel ih =>
    intro i q hi hf
    rcases Nat.lt_or_ge i cd.direct_methods.length with hlt | hge
    · have hcond : (ClassDataItemIterator.mk cd
          (cd.static_fields_size + cd.instance_fields_size + i)).HasNextDirectMethod = true := by
        simp [ClassDataItemIterator.HasNextDirectMethod,
          ClassDataItemIterator.EndOfDirectMethodsPos,
          ClassDataItemIterator.EndOfInstanceFieldsPos,
          ClassDataItemIterator.EndOfStaticFieldsPos, hlt]
      rw [whileLoop, if_pos hcond, hb _ q _ (method_at_direct cd i hlt)]
      have hnext : (ClassDataItemIterator.mk cd
          (cd.static_fields_size + cd.instance_fields_size + i)).Next
          = ⟨cd, cd.static_fields_size + cd.instance_fields_size + (i + 1)⟩ := by
        simp [ClassDataItemIterator.Next, Nat.add_assoc]
      rw [hnext, ih (i + 1) _ (by omega) (by omega), List.drop_eq_getElem_cons hlt,
        List.flatMap_cons, List.append_assoc]
    · have hi2 : i = cd.direct_methods.length := by omega
      subst hi2
      have hcond : (ClassDataItemIterator.mk cd
          (cd.static_fields_size + cd.instance_fields_size
            + cd.direct_methods.length)).HasNextDirectMethod = false := by
        simp [ClassDataItemIterator.HasNextDirectMethod,
          ClassDataItemIterator.EndOfDirectMethodsPos,
          ClassDataItemIterator.EndOfInstanceFieldsPos,
          ClassDataItemIterator.EndOfStaticFieldsPos]
      rw [whileLoop, hcond]
      simp

/-- The direct-method loop started right after the fields visits every direct method once,
in order, and stops on the position after the last direct method. -/
theorem whileHasNextDirectMethod_spec (cd : ClassData)
    (body : ClassDataItemIterator → RangeValues → RangeValues)
    (g : ClassDataMethod → RangeValues) (hb : emits body g) (q : RangeValues) :
    whileHasNextDirectMethod body (ClassDataItemIterator.mk cd 0).SkipAllFields q
      = (⟨cd, cd.static_fields_size + cd.instance_fields_size + cd.direct_methods.length⟩,
          q ++ cd.direct_methods.flatMap g) := by
  have hskip : (ClassDataItemIterator.mk cd 0).SkipAllFields
      = ⟨cd, cd.static_fields_size + cd.instance_fields_size + 0⟩ := by
    simp [ClassDataItemIterator.SkipAllFields, ClassDataItemIterator.EndOfInstanceFieldsPos,
      ClassDataItemIterator.EndOfStaticFieldsPos]
  rw [hskip, whileHasNextDirectMethod]
  have := whileLoop_direct cd body g hb
    ((ClassDataItemIterator.mk cd
      (cd.static_fields_size + cd.instance_fields_size + 0)).EndOfDirectMethodsPos
      - (cd.static_fields_size + cd.instance_fields_size + 0)) 0 q (Nat.zero_le _)
    (by simp [ClassDataItemIterator.EndOfDirectMethodsPos,
          ClassDataItemIterator.EndOfInstanceFieldsPos,
          ClassDataItemIterator.EndOfStaticFieldsPos])
  simpa using this

/-- The direct-method loop leaves through its condition: at exit no direct method is left. -/
theorem whileHasNextDirectMethod_exit (cd : ClassData)
    (body : ClassDataItemIterator → RangeValues → RangeValues)
    (g : ClassDataMethod → RangeValues) (hb : emits body g) (q : RangeValues) :
    (whileHasNextDirectMethod body (ClassDataItemIterator.mk cd 0).SkipAllFields
      q).1.HasNextDirectMethod = false := by
  rw [whileHasNextDirectMethod_spec cd body g hb q]
  simp [ClassDataItemIterator.HasNextDirectMethod, ClassDataItemIterator.EndOfDirectMethodsPos,
    ClassDataItemIterator.EndOfInstanceFieldsPos, ClassDataItemIterator.EndOfStaticFieldsPos]

theorem foldl_range_getD {α β : Type} (f : β → α → β) (dflt : α) (l : List α) (b : β) :
    (List.range l.length).foldl (fun acc i => f acc (l.getD i dflt)) b = l.foldl f b := by
  induction l using List.reverseRecOn generalizing b with
  | nil => simp
  | append_singleton l a ih =>
    rw [List.length_append, List.length_singleton, List.range_succ, List.foldl_append,
      List.foldl_append]
    have h1 : (List.range l.length).foldl (fun acc i => f acc ((l ++ [a]).getD i dflt)) b
        = (List.range l.length).foldl (fun acc i => f acc (l.getD i dflt)) b := by
      apply List.foldl_ext
      intro acc i hi
      rw [List.getD_append _ _ _ _ (List.mem_range.mp hi)]
    rw [h1, ih]
    simp [List.getD_append_right]

/-- The class-definition loop appends, class by class and method by method, what the body
emits for every traversed method. -/
theorem forEachClassDef_spec (d : DexFile)
    (body : ClassDataItemIterator → RangeValues → RangeValues)
    (g : ClassDataMethod → RangeValues) (hb : emits body g) (q : RangeValues) :
    forEachClassDef d body q = q ++ d.traversedMethods.flatMap g := by
  unfold forEachClassDef DexFile.NumClassDefs DexFile.GetClassDef
  rw [foldl_range_getD (fun q cd =>
      match d.GetClassData cd with
      | none => q
      | some class_data =>
        (whileHasNextDirectMethod body (ClassDataItemIterator.mk class_data 0).SkipAllFields
          q).2) ⟨none⟩ d.class_defs q]
  unfold DexFile.traversedMethods
  generalize d.class_defs = cds
  induction cds generalizing q with
  | nil => simp
  | cons cd cds ih =>
    rw [List.foldl_cons, ih]
    cases hcd : cd.class_data with
    | none => simp [DexFile.GetClassData, hcd, ClassDef.traversedMethods, List.flatMap_cons]
    | some c =>
      simp [DexFile.GetClassData, hcd, ClassDef.traversedMethods, List.flatMap_cons,
        whileHasNextDirectMethod_spec c body g hb, List.append_assoc]

theorem emits_codeItem (should_poison : Bool) :
    emits (SetAllCodeItemRegistration.body should_poison) (codeItemEntry should_poison) := by
  intro cdit q m hm
  unfold SetAllCodeItemRegistration.body codeItemEntry ClassDataItemIterator.GetMethodCodeItem
  rw [hm]
  cases h : m.code_item <;> simp [h, DexFile.GetCodeItemSize]

theorem emits_insns (should_poison : Bool) :
    emits (SetAllInsnsRegistration.body should_poison) (insnsEntry should_poison) := by
  intro cdit q m hm
  unfold SetAllInsnsRegistration.body insnsEntry ClassDataItemIterator.GetMethodCodeItem
  rw [hm]
  cases h : m.code_item <;> simp [h]

theorem emits_named (d : DexFile) (class_name : String) (should_poison : Bool) :
    emits (SetCodeItemRegistration.body d class_name should_poison)
      (namedEntry d class_name should_poison) := by
  intro cdit q m hm
  unfold SetCodeItemRegistration.body namedEntry ClassDataItemIterator.GetMethodCodeItem
    ClassDataItemIterator.GetMemberIndex
  rw [hm]
  cases h : m.code_item with
  | none => simp [h]
  | some c =>
    by_cases hn : d.method_names m.method_idx = class_name <;>
      simp [h, hn, DexFile.GetCodeItemSize, DexFile.GetMethodName]

theorem SetAllCodeItemRegistration_eq (d : DexFile) (should_poison : Bool) (q : RangeValues) :
    SetAllCodeItemRegistration d should_poison q
      = q ++ d.traversedMethods.flatMap (codeItemEntry should_poison) :=
  forEachClassDef_spec d _ _ (emits_codeItem should_poison) q

theorem SetAllInsnsRegistration_eq (d : DexFile) (should_poison : Bool) (q : RangeValues) :
    SetAllInsnsRegistration d should_poison q
      = q ++ d.traversedMethods.flatMap (insnsEntry should_poison) :=
  forEachClassDef_spec d _ _ (emits_insns should_poison) q

theorem SetCodeItemRegistration_eq (d : DexFile) (class_name : String) (should_poison : Bool)
    (q : RangeValues) :
    SetCodeItemRegistration d class_name should_poison q
      = q ++ d.traversedMethods.flatMap (namedEntry d class_name should_poison) :=
  forEachClassDef_spec d _ _ (emits_named d class_name should_poison) q

/-! ## Shape of the collected queues -/

/-- Queue collected under `kCodeItemTracking` from an empty queue. -/
theorem collect_codeItemTracking (d : DexFile) (log : List String) :
    (SetDexSections true .kCodeItemTracking ⟨some d, []⟩ log).1.range_values_
      = d.traversedMethods.flatMap (codeItemEntry true) := by
  simp [SetDexSections, SetAllCodeItemRegistration_eq]

/-- Queue collected under `kCodeItemNonInsnsTracking` from an empty queue. -/
theorem collect_nonInsnsTracking (d : DexFile) (log : List String) :
    (SetDexSections true .kCodeItemNonInsnsTracking ⟨some d, []⟩ log).1.range_values_
      = d.traversedMethods.flatMap (codeItemEntry true)
        ++ d.traversedMethods.flatMap (insnsEntry false) := by
  simp [SetDexSections, SetAllCodeItemRegistration_eq, SetAllInsnsRegistration_eq]

/-- Queue collected under `kCodeItemNonInsnsNoClinitTracking` from an empty queue. -/
theorem collect_noClinitTracking (d : DexFile) (log : List String) :
    (SetDexSections true .kCodeItemNonInsnsNoClinitTracking ⟨some d, []⟩ log).1.range_values_
      = d.traversedMethods.flatMap (codeItemEntry true)
        ++ d.traversedMethods.flatMap (insnsEntry false)
        ++ d.traversedMethods.flatMap (namedEntry d "<clinit>" false) := by
  simp [SetDexSections, SetAllCodeItemRegistration_eq, SetAllInsnsRegistration_eq,
    SetCodeItemRegistration_eq]

theorem flatMap_codeItemEntry (should_poison : Bool) (ms : List ClassDataMethod) :
    ms.flatMap (codeItemEntry should_poison)
      = (ms.filterMap (fun m => m.code_item)).map
          (fun c => (c.addr, c.code_item_size, should_poison)) := by
  induction ms with
  | nil => rfl
  | cons m ms ih =>
    rw [List.flatMap_cons, ih]
    cases h : m.code_item <;> simp [codeItemEntry, h, List.filterMap_cons]

theorem flatMap_insnsEntry (should_poison : Bool) (ms : List ClassDataMethod) :
    ms.flatMap (insnsEntry should_poison)
      = (ms.filterMap (fun m => m.code_item)).map
          (fun c => (c.insns_, insns_size c, should_poison)) := by
  induction ms with
  | nil => rfl
  | cons m ms ih =>
    rw [List.flatMap_cons, ih]
    cases h : m.code_item <;> simp [insnsEntry, h, List.filterMap_cons]

/-- Below `2 ^ 31` units the 32-bit product is the exact byte length. -/
theorem insns_size_exact (c : CodeItem) (h : c.insns_size_in_code_units_ < 2 ^ 31) :
    insns_size c = 2 * c.insns_size_in_code_units_ := by
  unfold insns_size
  rw [Nat.mod_eq_of_lt (by omega)]
  omega

/-! ## The drain loop -/

theorem loop_queue (q : RangeValues) (m : MemoryTool) : (SetCurrentRanges.loop q m).1 = [] := by
  induction q generalizing m with
  | nil => rfl
  | cons e q ih => simp [SetCurrentRanges.loop, ih]

theorem loop_calls (q : RangeValues) (m : MemoryTool) :
    (SetCurrentRanges.loop q m).2.calls
      = m.calls ++ q.map (fun e =>
          if e.2.2 then MemoryToolCall.MAKE_NOACCESS e.1 e.2.1
          else MemoryToolCall.MAKE_DEFINED e.1 e.2.1) := by
  induction q generalizing m with
  | nil => simp [SetCurrentRanges.loop]
  | cons e q ih =>
    rw [SetCurrentRanges.loop, ih]
    cases h : e.2.2 <;>
      simp [SetRegistrationRange, h, MEMORY_TOOL_MAKE_NOACCESS, MEMORY_TOOL_MAKE_DEFINED]

theorem loop_append (q1 q2 : RangeValues) (m : MemoryTool) :
    (SetCurrentRanges.loop (q1 ++ q2) m).2
      = (SetCurrentRanges.loop q2 (SetCurrentRanges.loop q1 m).2).2 := by
  induction q1 generalizing m with
  | nil => rfl
  | cons e q ih => simp [SetCurrentRanges.loop, ih]

/-- Draining entries that are all unpoisoned never takes accessibility away. -/
theorem loop_unpoison_keeps (q : RangeValues) (hq : ∀ e ∈ q, e.2.2 = false) (m : MemoryTool)
    (a : Nat) (ha : m.accessible a = true) : (SetCurrentRanges.loop q m).2.accessible a = true := by
  induction q generalizing m with
  | nil => simpa [SetCurrentRanges.loop] using ha
  | cons e q ih =>
    rw [SetCurrentRanges.loop]
    apply ih (fun e he => hq e (List.mem_cons_of_mem _ he))
    simp only [SetRegistrationRange, hq e (List.mem_cons_self _ _), MEMORY_TOOL_MAKE_DEFINED]
    simp [ha]

/-- Draining entries that are all unpoisoned makes every byte of every entry accessible. -/
theorem loop_unpoison_covers (q : RangeValues) (hq : ∀ e ∈ q, e.2.2 = false) (m : MemoryTool)
    (a : Nat) (e : RangeValue) (he : e ∈ q) (ha : InRange a e.1 e.2.1) :
    (SetCurrentRanges.loop q m).2.accessible a = true := by
  induction q generalizing m with
  | nil => cases he
  | cons e0 q ih =>
    rw [SetCurrentRanges.loop]
    rcases List.mem_cons.mp he with h | h
    · subst h
      apply loop_unpoison_keeps q (fun x hx => hq x (List.mem_cons_of_mem _ hx))
      simp only [SetRegistrationRange, hq e (List.mem_cons_self _ _), MEMORY_TOOL_MAKE_DEFINED]
      have : e.1 ≤ a ∧ a < e.1 + e.2.1 := ha
      simp [this]
    · exact ih (fun x hx => hq x (List.mem_cons_of_mem _ hx)) _ h

/-- Draining entries that are all unpoisoned changes nothing outside their ranges. -/
theorem loop_unpoison_outside (q : RangeValues) (hq : ∀ e ∈ q, e.2.2 = false) (m : MemoryTool)
    (a : Nat) (ha : ∀ e ∈ q, ¬ InRange a e.1 e.2.1) :
    (SetCurrentRanges.loop q m).2.accessible a = m.accessible a := by
  induction q generalizing m with
  | nil => rfl
  | cons e q ih =>
    rw [SetCurrentRanges.loop, ih (fun x hx => hq x (List.mem_cons_of_mem _ hx)) _
      (fun x hx => ha x (List.mem_cons_of_mem _ hx))]
    have h0 : ¬ (e.1 ≤ a ∧ a < e.1 + e.2.1) := ha e (List.mem_cons_self _ _)
    simp only [SetRegistrationRange, hq e (List.mem_cons_self _ _), MEMORY_TOOL_MAKE_DEFINED]
    simp [h0]

/-- Draining entries that are all poisoned leaves every byte of every entry no-access. -/
theorem loop_poison_covers (q : RangeValues) (hq : ∀ e ∈ q, e.2.2 = true) (m : MemoryTool)
    (a : Nat) (e : RangeValue) (he : e ∈ q) (ha : InRange a e.1 e.2.1) :
    (SetCurrentRanges.loop q m).2.accessible a = false := by
  have keeps : ∀ (l : RangeValues), (∀ x ∈ l, x.2.2 = true) → ∀ (m : MemoryTool),
      m.accessible a = false → (SetCurrentRanges.loop l m).2.accessible a = false := by
    intro l
    induction l with
    | nil => intro _ m hm; simpa [SetCurrentRanges.loop] using hm
    | cons x l ih =>
      intro hl m hm
      rw [SetCurrentRanges.loop]
      apply ih (fun y hy => hl y (List.mem_cons_of_mem _ hy))
      simp only [SetRegistrationRange, hl x (List.mem_cons_self _ _), MEMORY_TOOL_MAKE_NOACCESS]
      simp [hm]
  induction q generalizing m with
  | nil => cases he
  | cons e0 q ih =>
    rw [SetCurrentRanges.loop]
    rcases List.mem_cons.mp he with h | h
    · subst h
      apply keeps q (fun x hx => hq x (List.mem_cons_of_mem _ hx))
      simp only [SetRegistrationRange, hq e (List.mem_cons_self _ _), MEMORY_TOOL_MAKE_NOACCESS]
      have : e.1 ≤ a ∧ a < e.1 + e.2.1 := ha
      simp [this]
    · exact ih (fun x hx => hq x (List.mem_cons_of_mem _ hx)) _ h

/-! ## Claims -/

/-- C1: with tracking enabled and the whole-container policy, `SetDexSections` started on an
empty queue for a non-null container with base address `b` and size `s` leaves a queue of
exactly one entry, `(b, s, true)`, whatever class definitions the container holds. -/
theorem C1_whole_container_single_entry (d : DexFile) (log : List String) :
    (SetDexSections true .kWholeDexTracking ⟨some d, []⟩ log).1.range_values_
      = [(d.begin_, d.size_, true)] := by
  simp [SetDexSections, SetDexFileRegistration]

/-- C2: for every policy, when the container is null or tracking is disabled,
`SetDexSections` leaves the pending queue empty and writes no log line, and `RegisterDexFile`
makes no call of the memory-tool primitive (the memory tool is left as it was). -/
theorem C2_null_or_disabled_is_noop (kDexFileAccessTracking : Bool)
    (policy : DexTrackingType) (dex_file : Option DexFile) (log : List String) (m : MemoryTool)
    (h : dex_file = none ∨ kDexFileAccessTracking = false) :
    (SetDexSections kDexFileAccessTracking policy ⟨dex_file, []⟩ log).1.range_values_ = []
      ∧ (SetDexSections kDexFileAccessTracking policy ⟨dex_file, []⟩ log).2 = log
      ∧ (RegisterDexFile kDexFileAccessTracking policy dex_file log m).2.2.calls = m.calls
      ∧ (RegisterDexFile kDexFileAccessTracking policy dex_file log m).2.2 = m := by
  have hs : SetDexSections kDexFileAccessTracking policy ⟨dex_file, []⟩ log
      = (⟨dex_file, []⟩, log) := by
    rcases h with h | h
    · subst h
      cases kDexFileAccessTracking <;> rfl
    · subst h
      cases dex_file <;> rfl
  simp [RegisterDexFile, hs, SetCurrentRanges, SetCurrentRanges.loop]

/-- Witness of C2: a null container under the whole-container policy, tracking enabled. -/
theorem C2_null_or_disabled_is_noop_witness :
    ((none : Option DexFile) = none ∨ true = false)
      ∧ (SetDexSections true .kWholeDexTracking ⟨none, []⟩ ["earlier line"]).1.range_values_ = []
      ∧ (SetDexSections true .kWholeDexTracking ⟨none, []⟩ ["earlier line"]).2 = ["earlier line"]
      ∧ (RegisterDexFile true .kWholeDexTracking none ["earlier line"] freshNoAccess).2.2.calls
          = freshNoAccess.calls
      ∧ (RegisterDexFile true .kWholeDexTracking none ["earlier line"] freshNoAccess).2.2
          = freshNoAccess :=
  ⟨Or.inl rfl,
    C2_null_or_disabled_is_noop true .kWholeDexTracking none ["earlier line"] freshNoAccess
      (Or.inl rfl)⟩

/-- C3: `SetCurrentRanges` calls the memory-tool primitive once per pending entry, in enqueue
order: the calls it adds to the trace are, entry by entry, mark-no-access of the entry's
address and length when the entry is poisoned and mark-defined of them otherwise; their
number is the length of the queue. -/
theorem C3_apply_calls_in_order (r : DexFileTrackingRegistrar) (m : MemoryTool) :
    (SetCurrentRanges r m).2.calls
      = m.calls ++ r.range_values_.map (fun e =>
          if e.2.2 then MemoryToolCall.MAKE_NOACCESS e.1 e.2.1
          else MemoryToolCall.MAKE_DEFINED e.1 e.2.1)
      ∧ (SetCurrentRanges r m).2.calls.length = m.calls.length + r.range_values_.length := by
  have h := loop_calls r.range_values_ m
  refine ⟨by simpa [SetCurrentRanges] using h, ?_⟩
  simp [SetCurrentRanges, h]

/-- C4: `SetCurrentRanges` is a total function of the registrar and the memory tool, and the
pending queue is empty when it returns, whatever its length was. -/
theorem C4_apply_empties_queue (r : DexFileTrackingRegistrar) (m : MemoryTool) :
    (SetCurrentRanges r m).1.range_values_ = [] := by
  simp [SetCurrentRanges, loop_queue]

/-- C5 as stated fails: on scenario B the collected queue is not the interleaved list
(block1, insns1, block2, insns2). -/
theorem C5_interleaved_order_fails :
    (SetDexSections true .kCodeItemNonInsnsTracking ⟨some scenarioB, []⟩ []).1.range_values_
      ≠ [(4200, 40, true), (4216, 20, false), (4300, 64, true), (4316, 40, false)] := by
  decide

/-- C5 amended: for a container with two class definitions, each with non-null class data
and exactly one method, a direct method with a code block (40 bytes with 10 units, 64 bytes
with 20 units), the all-code-blocks-except-instructions policy yields the four entries
(block1, 40, poison), (block2, 64, poison), (insns1, 20, unpoison), (insns2, 40, unpoison),
in this order: the two poisoned block entries first, then the two instruction entries. -/
theorem C5_scenarioB_two_pass_order (d : DexFile) (log : List String) (cd1 cd2 : ClassData)
    (idx1 idx2 : Nat) (c1 c2 : CodeItem)
    (hd : d.class_defs = [⟨some cd1⟩, ⟨some cd2⟩])
    (h1 : cd1.direct_methods = [⟨idx1, some c1⟩]) (_h1v : cd1.virtual_methods = [])
    (h2 : cd2.direct_methods = [⟨idx2, some c2⟩]) (_h2v : cd2.virtual_methods = [])
    (hs1 : c1.code_item_size = 40) (hu1 : c1.insns_size_in_code_units_ = 10)
    (hs2 : c2.code_item_size = 64) (hu2 : c2.insns_size_in_code_units_ = 20) :
    (SetDexSections true .kCodeItemNonInsnsTracking ⟨some d, []⟩ log).1.range_values_
      = [(c1.addr, 40, true), (c2.addr, 64, true), (c1.insns_, 20, false),
          (c2.insns_, 40, false)] := by
  rw [collect_nonInsnsTracking]
  simp [DexFile.traversedMethods, hd, ClassDef.traversedMethods, h1, h2, List.flatMap_cons,
    codeItemEntry, insnsEntry, insns_size, hs1, hs2, hu1, hu2]

/-- Witness of the amended C5: scenario B itself. -/
theorem C5_scenarioB_two_pass_order_witness :
    scenarioB.class_defs
        = [⟨some ⟨0, 0, [⟨0, some ⟨4200, 40, 4216, 10⟩⟩], []⟩⟩,
           ⟨some ⟨0, 0, [⟨1, some ⟨4300, 64, 4316, 20⟩⟩], []⟩⟩]
      ∧ (SetDexSections true .kCodeItemNonInsnsTracking ⟨some scenarioB, []⟩ []).1.range_values_
          = [(4200, 40, true), (4300, 64, true), (4216, 20, false), (4316, 40, false)] :=
  ⟨rfl, C5_scenarioB_two_pass_order scenarioB []
    ⟨0, 0, [⟨0, some ⟨4200, 40, 4216, 10⟩⟩], []⟩ ⟨0, 0, [⟨1, some ⟨4300, 64, 4316, 20⟩⟩], []⟩
    0 1 ⟨4200, 40, 4216, 10⟩ ⟨4300, 64, 4316, 20⟩ rfl rfl rfl rfl rfl rfl rfl rfl rfl⟩

/-- C6 at its failing input: the container `virtualOnly` has one method with a non-null code
block (a virtual method) in a class with non-null class data, yet the all-code-blocks policy
collects no entry, because the traversal stops at the end of the direct methods. -/
theorem C6_virtual_methods_skipped :
    virtualOnly.numMethodsWithCode = 1
      ∧ (SetDexSections true .kCodeItemTracking ⟨some virtualOnly, []⟩ []).1.range_values_
          = [] := by
  decide

/-- C7 at its failing input: for the stored unit count `2 ^ 31` (an unsigned 32-bit value)
the instruction entry enqueued by `SetAllInsnsRegistration` has byte length 0, not
`2 * 2 ^ 31`: the product is taken in 32 bits and wraps. -/
theorem C7_insns_length_wraps :
    (2147483648 < 2 ^ 32)
      ∧ SetAllInsnsRegistration wideInsns false [] = [(4216, 0, false)]
      ∧ (0 : Nat) ≠ 2 * 2147483648 := by
  decide

/-- Entries of the queue of the all-code-blocks-except-instructions policy as the code
computes them: `2 * k` entries for `k` traversed code blocks, namely, up to order, one
poisoned entry (block start, block byte size, true) and one unpoisoned entry per block whose
length is the 32-bit product `insns_size`, which is the byte length of the instruction array
only below `2 ^ 31` units. -/
theorem nonInsns_queue_perm (d : DexFile) (log : List String) :
    (SetDexSections true .kCodeItemNonInsnsTracking ⟨some d, []⟩ log).1.range_values_.length
        = 2 * d.traversedCodeItems.length
      ∧ ((SetDexSections true .kCodeItemNonInsnsTracking ⟨some d, []⟩ log).1.range_values_).Perm
          (d.traversedCodeItems.flatMap (fun c =>
            [(c.addr, c.code_item_size, true), (c.insns_, insns_size c, false)])) := by
  rw [collect_nonInsnsTracking, flatMap_codeItemEntry, flatMap_insnsEntry]
  unfold DexFile.traversedCodeItems
  generalize d.traversedMethods.filterMap (fun m => m.code_item) = l
  refine ⟨by simp; omega, ?_⟩
  induction l with
  | nil => simp
  | cons c l ih =>
    simp only [List.map_cons, List.flatMap_cons, List.cons_append, List.nil_append,
      List.singleton_append]
    exact (List.perm_middle.trans (List.Perm.cons _ ih)).cons _

/-- C9: under the named-exemption policy (tracking enabled), for a traversed method named exactly `<clinit>`
with code block `B`: the collected queue is the queue of the code-block pass and the
instruction pass followed by the entries of the named pass, the unpoisoned entry
`(B.addr, B.code_item_size, false)` is among the latter, and after `SetCurrentRanges` has
applied the collected queue to any memory tool state, every byte `a` of
`[B.addr, B.addr + B.code_item_size)` is accessible. -/
theorem C9_clinit_block_accessible (d : DexFile) (log : List String) (m : ClassDataMethod)
    (B : CodeItem) (m0 : MemoryTool) (a : Nat)
    (hm : m ∈ d.traversedMethods) (hB : m.code_item = some B)
    (hname : d.GetMethodName m.method_idx = "<clinit>")
    (ha : InRange a B.addr B.code_item_size) :
    (SetDexSections true .kCodeItemNonInsnsNoClinitTracking ⟨some d, []⟩ log).1.range_values_
        = (SetDexSections true .kCodeItemNonInsnsTracking ⟨some d, []⟩ log).1.range_values_
          ++ SetCodeItemRegistration d "<clinit>" false []
      ∧ (B.addr, B.code_item_size, false) ∈ SetCodeItemRegistration d "<clinit>" false []
      ∧ (SetCurrentRanges
          (SetDexSections true .kCodeItemNonInsnsNoClinitTracking ⟨some d, []⟩ log).1
          m0).2.accessible a = true := by
  have hq : (SetDexSections true .kCodeItemNonInsnsNoClinitTracking ⟨some d, []⟩
      log).1.range_values_
      = (SetDexSections true .kCodeItemNonInsnsTracking ⟨some d, []⟩ log).1.range_values_
        ++ SetCodeItemRegistration d "<clinit>" false [] := by
    rw [collect_noClinitTracking, collect_nonInsnsTracking, SetCodeItemRegistration_eq]
    simp
  have hmem : (B.addr, B.code_item_size, false) ∈ SetCodeItemRegistration d "<clinit>" false [] := by
    rw [SetCodeItemRegistration_eq, List.nil_append, List.mem_flatMap]
    refine ⟨m, hm, ?_⟩
    have hn : d.method_names m.method_idx = "<clinit>" := hname
    simp [namedEntry, hB, hn]
  have hall : ∀ e ∈ SetCodeItemRegistration d "<clinit>" false [], e.2.2 = false := by
    intro e he
    rw [SetCodeItemRegistration_eq, List.nil_append, List.mem_flatMap] at he
    obtain ⟨x, _, hx⟩ := he
    unfold namedEntry at hx
    cases hc : x.code_item with
    | none => simp [hc] at hx
    | some c =>
      by_cases hn : d.method_names x.method_idx = "<clinit>"
      · simp [hc, hn] at hx
        rw [hx]
      · simp [hc, hn] at hx
  refine ⟨hq, hmem, ?_⟩
  unfold SetCurrentRanges
  rw [hq, loop_append]
  exact loop_unpoison_covers _ hall _ a _ hmem ha

/-- Witness of C9: the class initializer of `withClinit`, byte 4210, every byte no-access
beforehand. -/
theorem C9_clinit_block_accessible_witness :
    ((⟨0, some ⟨4200, 40, 4216, 10⟩⟩ : ClassDataMethod) ∈ withClinit.traversedMethods
      ∧ withClinit.GetMethodName 0 = "<clinit>"
      ∧ InRange 4210 4200 40)
    ∧ ((SetDexSections true .kCodeItemNonInsnsNoClinitTracking ⟨some withClinit, []⟩
          []).1.range_values_
        = (SetDexSections true .kCodeItemNonInsnsTracking ⟨some withClinit, []⟩
            []).1.range_values_
          ++ SetCodeItemRegistration withClinit "<clinit>" false []
      ∧ ((4200, 40, false) : RangeValue) ∈ SetCodeItemRegistration withClinit "<clinit>" false []
      ∧ (SetCurrentRanges
          (SetDexSections true .kCodeItemNonInsnsNoClinitTracking ⟨some withClinit, []⟩ []).1
          freshNoAccess).2.accessible 4210 = true) :=
  ⟨⟨by decide, rfl, by decide⟩,
    C9_clinit_block_accessible withClinit [] ⟨0, some ⟨4200, 40, 4216, 10⟩⟩
      ⟨4200, 40, 4216, 10⟩ freshNoAccess 4210 (by decide) rfl rfl (by decide)⟩

/-- Shadow state left by the all-code-blocks-except-instructions policy, in terms of the
ranges the code enqueues: when any two different traversed code blocks are disjoint and the
range `[insns_, insns_ + insns_size)` enqueued for a block lies inside that block, a byte
`a` of a traversed block `B` is accessible after `SetCurrentRanges` exactly when it lies in
the range enqueued for `B`. That range is the instruction array only below `2 ^ 31`
units. -/
theorem nonInsns_shadow (d : DexFile) (log : List String) (m0 : MemoryTool)
    (B : CodeItem) (a : Nat)
    (hdisj : ∀ c1 ∈ d.traversedCodeItems, ∀ c2 ∈ d.traversedCodeItems, c1 ≠ c2 →
      ∀ x, ¬ (InRange x c1.addr c1.code_item_size ∧ InRange x c2.addr c2.code_item_size))
    (hinside : ∀ c ∈ d.traversedCodeItems, ∀ x,
      InRange x c.insns_ (insns_size c) → InRange x c.addr c.code_item_size)
    (hB : B ∈ d.traversedCodeItems) (ha : InRange a B.addr B.code_item_size) :
    ((SetCurrentRanges (SetDexSections true .kCodeItemNonInsnsTracking ⟨some d, []⟩ log).1
        m0).2.accessible a = true ↔ InRange a B.insns_ (insns_size B))
      ∧ ((SetCurrentRanges (SetDexSections true .kCodeItemNonInsnsTracking ⟨some d, []⟩ log).1
        m0).2.accessible a = false ↔ ¬ InRange a B.insns_ (insns_size B)) := by
  have key : (SetCurrentRanges (SetDexSections true .kCodeItemNonInsnsTracking ⟨some d, []⟩
      log).1 m0).2.accessible a = true ↔ InRange a B.insns_ (insns_size B) := by
    unfold SetCurrentRanges
    rw [collect_nonInsnsTracking, flatMap_codeItemEntry, flatMap_insnsEntry, loop_append]
    change (SetCurrentRanges.loop (d.traversedCodeItems.map _)
      (SetCurrentRanges.loop (d.traversedCodeItems.map _) m0).2).2.accessible a = true ↔ _
    have hP : ∀ e ∈ d.traversedCodeItems.map (fun c => (c.addr, c.code_item_size, true)),
        e.2.2 = true := by
      intro e he
      obtain ⟨c, _, rfl⟩ := List.mem_map.mp he
      rfl
    have hU : ∀ e ∈ d.traversedCodeItems.map (fun c => (c.insns_, insns_size c, false)),
        e.2.2 = false := by
      intro e he
      obtain ⟨c, _, rfl⟩ := List.mem_map.mp he
      rfl
    have h1 : (SetCurrentRanges.loop
        (d.traversedCodeItems.map (fun c => (c.addr, c.code_item_size, true)))
        m0).2.accessible a = false :=
      loop_poison_covers _ hP m0 a (B.addr, B.code_item_size, true)
        (List.mem_map.mpr ⟨B, hB, rfl⟩) ha
    constructor
    · intro hacc
      by_contra hnot
      have hout : ∀ e ∈ d.traversedCodeItems.map (fun c => (c.insns_, insns_size c, false)),
          ¬ InRange a e.1 e.2.1 := by
        intro e he hin
        obtain ⟨c, hc, rfl⟩ := List.mem_map.mp he
        by_cases hcB : c = B
        · subst hcB
          exact hnot hin
        · exact hdisj c hc B hB hcB a ⟨hinside c hc a hin, ha⟩
      rw [loop_unpoison_outside _ hU _ a hout, h1] at hacc
      cases hacc
    · intro hin
      exact loop_unpoison_covers _ hU _ a (B.insns_, insns_size B, false)
        (List.mem_map.mpr ⟨B, hB, rfl⟩) hin
  refine ⟨key, ?_⟩
  rw [← key]
  simp

theorem scenarioB_traversedCodeItems :
    scenarioB.traversedCodeItems = [⟨4200, 40, 4216, 10⟩, ⟨4300, 64, 4316, 20⟩] := by
  decide

theorem scenarioB_blocks_disjoint :
    ∀ c1 ∈ scenarioB.traversedCodeItems, ∀ c2 ∈ scenarioB.traversedCodeItems, c1 ≠ c2 →
      ∀ x, ¬ (InRange x c1.addr c1.code_item_size ∧ InRange x c2.addr c2.code_item_size) := by
  rw [scenarioB_traversedCodeItems]
  intro c1 h1 c2 h2 hne x
  simp only [List.mem_cons, List.mem_singleton, List.not_mem_nil, or_false] at h1 h2
  rcases h1 with rfl | rfl <;> rcases h2 with rfl | rfl
  · exact absurd rfl hne
  · simp only [InRange]
    omega
  · simp only [InRange]
    omega
  · exact absurd rfl hne

theorem scenarioB_insns_inside :
    ∀ c ∈ scenarioB.traversedCodeItems, ∀ x,
      InRange x c.insns_ (insns_size c) → InRange x c.addr c.code_item_size := by
  rw [scenarioB_traversedCodeItems]
  intro c hc x
  simp only [List.mem_cons, List.mem_singleton, List.not_mem_nil, or_false] at hc
  rcases hc with rfl | rfl <;>
    · simp only [InRange, insns_size]
      omega

/-- The shadow lemma on scenario B, first code block, byte 4216 (its first instruction
byte), every byte accessible beforehand. -/
theorem nonInsns_shadow_scenarioB :
    ((∀ c1 ∈ scenarioB.traversedCodeItems, ∀ c2 ∈ scenarioB.traversedCodeItems, c1 ≠ c2 →
        ∀ x, ¬ (InRange x c1.addr c1.code_item_size ∧ InRange x c2.addr c2.code_item_size))
      ∧ (∀ c ∈ scenarioB.traversedCodeItems, ∀ x,
          InRange x c.insns_ (insns_size c) → InRange x c.addr c.code_item_size)
      ∧ (⟨4200, 40, 4216, 10⟩ : CodeItem) ∈ scenarioB.traversedCodeItems
      ∧ InRange 4216 4200 40)
    ∧ (((SetCurrentRanges
          (SetDexSections true .kCodeItemNonInsnsTracking ⟨some scenarioB, []⟩ []).1
          freshAccessible).2.accessible 4216 = true
        ↔ InRange 4216 4216 (insns_size ⟨4200, 40, 4216, 10⟩))
      ∧ ((SetCurrentRanges
          (SetDexSections true .kCodeItemNonInsnsTracking ⟨some scenarioB, []⟩ []).1
          freshAccessible).2.accessible 4216 = false
        ↔ ¬ InRange 4216 4216 (insns_size ⟨4200, 40, 4216, 10⟩))) :=
  ⟨⟨scenarioB_blocks_disjoint, scenarioB_insns_inside, by decide, by decide⟩,
    nonInsns_shadow scenarioB [] freshAccessible ⟨4200, 40, 4216, 10⟩ 4216
      scenarioB_blocks_disjoint scenarioB_insns_inside (by decide) (by decide)⟩

/-! ## Further lemmas for the claims on the collected queue -/

theorem flatMap_range_getD {α β : Type} (f : α → List β) (dflt : α) (l : List α) :
    (List.range l.length).flatMap (fun i => f (l.getD i dflt)) = l.flatMap f := by
  induction l using List.reverseRecOn with
  | nil => simp
  | append_singleton l a ih =>
    rw [List.length_append, List.length_singleton, List.range_succ, List.flatMap_append,
      List.flatMap_append, ← ih]
    congr 1
    · apply List.flatMap_congr
      intro i hi
      rw [List.getD_append _ _ _ _ (List.mem_range.mp hi)]
    · simp [List.getD_append_right]

theorem flatMap_namedEntry (d : DexFile) (class_name : String) (should_poison : Bool)
    (ms : List ClassDataMethod) :
    ms.flatMap (namedEntry d class_name should_poison)
      = ms.filterMap (fun m =>
          if d.GetMethodName m.method_idx = class_name then
            m.code_item.map (fun c => (c.addr, c.code_item_size, should_poison))
          else none) := by
  induction ms with
  | nil => rfl
  | cons m ms ih =>
    rw [List.flatMap_cons, ih]
    cases h : m.code_item with
    | none => simp [namedEntry, h, List.filterMap_cons]
    | some c =>
      by_cases hn : d.method_names m.method_idx = class_name <;>
        simp [namedEntry, h, hn, List.filterMap_cons, DexFile.GetMethodName]

theorem namedEntry_unpoisoned (d : DexFile) (class_name : String) :
    ∀ e ∈ SetCodeItemRegistration d class_name false [], e.2.2 = false := by
  intro e he
  rw [SetCodeItemRegistration_eq, List.nil_append, List.mem_flatMap] at he
  obtain ⟨x, _, hx⟩ := he
  unfold namedEntry at hx
  cases hc : x.code_item with
  | none => simp [hc] at hx
  | some c =>
    by_cases hn : d.method_names x.method_idx = class_name
    · simp [hc, hn] at hx
      rw [hx]
    · simp [hc, hn] at hx

/-! ## Further lemmas on the drain loop -/

theorem iterations_spec (q : RangeValues) (m : MemoryTool) :
    ∀ k, k ≤ q.length →
      (SetCurrentRanges.iterations k q m).1 = q.drop k
        ∧ (SetCurrentRanges.iterations k q m).2 = (SetCurrentRanges.loop (q.take k) m).2 := by
  intro k
  induction k generalizing q m with
  | zero => intro _; simp [SetCurrentRanges.iterations, SetCurrentRanges.loop]
  | succ k ih =>
    intro hk
    cases q with
    | nil => simp at hk
    | cons e q =>
      have hk2 : k ≤ q.length := by simpa using hk
      simp only [SetCurrentRanges.iterations, List.isEmpty_cons, Bool.false_eq_true, if_false,
        SetCurrentRanges.body, List.drop_succ_cons, List.take_succ_cons, SetCurrentRanges.loop]
      exact ih q _ hk2

theorem loop_eq_iterations (q : RangeValues) (m : MemoryTool) :
    SetCurrentRanges.loop q m = SetCurrentRanges.iterations q.length q m := by
  have h := iterations_spec q m q.length (Nat.le_refl _)
  apply Prod.ext
  · rw [h.1, loop_queue]
    simp
  · rw [h.2]
    simp

/-! ## Claims, continued -/

/-- C11: for a non-null container (tracking enabled) the queue collected under the
named-exemption policy is the queue collected under the all-code-blocks-except-instructions
policy followed by the entries `SetCodeItemRegistration` appends for `<clinit>` with poison
flag false; so the latter queue is a prefix of the former, and every appended entry is
unpoisoned. -/
theorem C11_named_exemption_extends (d : DexFile) (log : List String) :
    (SetDexSections true .kCodeItemNonInsnsNoClinitTracking ⟨some d, []⟩ log).1.range_values_
        = SetCodeItemRegistration d "<clinit>" false
            (SetDexSections true .kCodeItemNonInsnsTracking ⟨some d, []⟩ log).1.range_values_
      ∧ SetCodeItemRegistration d "<clinit>" false
            (SetDexSections true .kCodeItemNonInsnsTracking ⟨some d, []⟩ log).1.range_values_
          = (SetDexSections true .kCodeItemNonInsnsTracking ⟨some d, []⟩ log).1.range_values_
            ++ SetCodeItemRegistration d "<clinit>" false []
      ∧ (SetDexSections true .kCodeItemNonInsnsTracking ⟨some d, []⟩ log).1.range_values_
          <+: (SetDexSections true .kCodeItemNonInsnsNoClinitTracking ⟨some d, []⟩
                log).1.range_values_
      ∧ ∀ e ∈ SetCodeItemRegistration d "<clinit>" false [], e.2.2 = false := by
  have h1 : (SetDexSections true .kCodeItemNonInsnsNoClinitTracking ⟨some d, []⟩
      log).1.range_values_
      = SetCodeItemRegistration d "<clinit>" false
          (SetDexSections true .kCodeItemNonInsnsTracking ⟨some d, []⟩ log).1.range_values_ :=
    rfl
  have h2 : SetCodeItemRegistration d "<clinit>" false
      (SetDexSections true .kCodeItemNonInsnsTracking ⟨some d, []⟩ log).1.range_values_
      = (SetDexSections true .kCodeItemNonInsnsTracking ⟨some d, []⟩ log).1.range_values_
        ++ SetCodeItemRegistration d "<clinit>" false [] := by
    rw [SetCodeItemRegistration_eq, SetCodeItemRegistration_eq d "<clinit>" false [],
      List.nil_append]
  refine ⟨h1, h2, ?_, namedEntry_unpoisoned d "<clinit>"⟩
  rw [h1, h2]
  exact List.prefix_append _ _

/-- C12: for a non-null container (tracking enabled) the queue collected under the
all-code-blocks policy is the concatenation, over the class-definition indices
`0, 1, ..., NumClassDefs - 1` in this order, of the entries (code block start, code block
byte size, true) of the direct methods of that class in iteration order; a class definition
with null class data and a method with a null code block contribute nothing. -/
theorem C12_all_code_blocks_order (d : DexFile) (log : List String) :
    (SetDexSections true .kCodeItemTracking ⟨some d, []⟩ log).1.range_values_
      = (List.range d.NumClassDefs).flatMap (fun classdef_ctr =>
          match d.GetClassData (d.GetClassDef classdef_ctr) with
          | none => []
          | some class_data =>
            class_data.direct_methods.flatMap (fun m =>
              match m.code_item with
              | none => []
              | some c => [(c.addr, c.code_item_size, true)])) := by
  rw [collect_codeItemTracking]
  unfold DexFile.NumClassDefs DexFile.GetClassDef DexFile.GetClassData
  rw [flatMap_range_getD (fun cd : ClassDef =>
      match cd.class_data with
      | none => []
      | some class_data =>
        class_data.direct_methods.flatMap (fun m =>
          match m.code_item with
          | none => ([] : RangeValues)
          | some c => [(c.addr, c.code_item_size, true)])) ⟨none⟩ d.class_defs]
  unfold DexFile.traversedMethods
  generalize d.class_defs = cds
  induction cds with
  | nil => rfl
  | cons cd cds ih =>
    rw [List.flatMap_cons, List.flatMap_append, ih, List.flatMap_cons]
    congr 1
    cases hcd : cd.class_data with
    | none => simp [ClassDef.traversedMethods, hcd]
    | some c =>
      simp only [ClassDef.traversedMethods, hcd]
      apply List.flatMap_congr
      intro m _
      cases hm : m.code_item <;> simp [codeItemEntry, hm]

/-- C13: `SetCurrentRanges` on an empty queue returns the registrar and the memory tool as
they were (no call, same shadow, empty queue); hence running `SetCurrentRanges` a second
time right after a first run changes nothing: the state after two runs is the state after
one. -/
theorem C13_apply_idempotent (r : DexFileTrackingRegistrar) (m : MemoryTool) :
    SetCurrentRanges ⟨r.dex_file_, []⟩ m = (⟨r.dex_file_, []⟩, m)
      ∧ SetCurrentRanges (SetCurrentRanges r m).1 (SetCurrentRanges r m).2
          = SetCurrentRanges r m := by
  refine ⟨rfl, ?_⟩
  simp [SetCurrentRanges, loop_queue, SetCurrentRanges.loop]

/-- C14: for a non-null container in which no method of any class definition carries a code
block (tracking enabled), the whole-container policy collects exactly the entry
(base, size, true) and the all-code-blocks policy collects nothing. -/
theorem C14_no_code_blocks (d : DexFile) (log : List String)
    (h : ∀ m ∈ d.class_defs.flatMap ClassDef.allMethods, m.code_item = none) :
    (SetDexSections true .kWholeDexTracking ⟨some d, []⟩ log).1.range_values_
        = [(d.begin_, d.size_, true)]
      ∧ (SetDexSections true .kCodeItemTracking ⟨some d, []⟩ log).1.range_values_ = [] := by
  refine ⟨by simp [SetDexSections, SetDexFileRegistration], ?_⟩
  rw [collect_codeItemTracking, List.flatMap_eq_nil_iff]
  intro m hm
  have hall : m ∈ d.class_defs.flatMap ClassDef.allMethods := by
    unfold DexFile.traversedMethods at hm
    obtain ⟨cd, hcd, hmcd⟩ := List.mem_flatMap.mp hm
    refine List.mem_flatMap.mpr ⟨cd, hcd, ?_⟩
    unfold ClassDef.traversedMethods at hmcd
    unfold ClassDef.allMethods
    cases hc : cd.class_data with
    | none => simp [hc] at hmcd
    | some c =>
      simp only [hc] at hmcd
      exact List.mem_append_left _ hmcd
  simp [codeItemEntry, h m hall]

/-- Witness of C14: scenario A, one class and no code block. -/
theorem C14_no_code_blocks_witness :
    (∀ m ∈ scenarioA.class_defs.flatMap ClassDef.allMethods, m.code_item = none)
      ∧ ((SetDexSections true .kWholeDexTracking ⟨some scenarioA, []⟩ []).1.range_values_
          = [(8192, 512, true)]
        ∧ (SetDexSections true .kCodeItemTracking ⟨some scenarioA, []⟩ []).1.range_values_
          = []) :=
  ⟨by decide, C14_no_code_blocks scenarioA [] (by decide)⟩

/-- C15: under the custom policy, for every container, null or not, and with tracking
enabled or disabled, `SetDexSections` enqueues nothing, and the `SetCurrentRanges` that
follows makes no call of the primitive: the memory tool is left as it was. -/
theorem C15_custom_policy_collects_nothing (kDexFileAccessTracking : Bool)
    (dex_file : Option DexFile) (log : List String) (m : MemoryTool) :
    (SetDexSections kDexFileAccessTracking .kCustomTracking ⟨dex_file, []⟩ log).1.range_values_
        = []
      ∧ (SetCurrentRanges
          (SetDexSections kDexFileAccessTracking .kCustomTracking ⟨dex_file, []⟩ log).1
          m).2.calls = m.calls
      ∧ (SetCurrentRanges
          (SetDexSections kDexFileAccessTracking .kCustomTracking ⟨dex_file, []⟩ log).1
          m).2 = m := by
  have hs : (SetDexSections kDexFileAccessTracking .kCustomTracking ⟨dex_file, []⟩
      log).1 = ⟨dex_file, []⟩ := by
    cases kDexFileAccessTracking <;> cases dex_file <;> rfl
  rw [hs]
  exact ⟨rfl, rfl, rfl⟩

/-- C16: for every container, null or not, every policy and either tracking setting, one
`RegisterDexFile` call ends with an empty pending queue, and the calls of the primitive it
adds to the trace are exactly the queue `SetDexSections` collected from an empty queue,
entry by entry in enqueue order. -/
theorem C16_register_applies_collected_queue (kDexFileAccessTracking : Bool)
    (policy : DexTrackingType) (dex_file : Option DexFile) (log : List String)
    (m : MemoryTool) :
    (RegisterDexFile kDexFileAccessTracking policy dex_file log m).1.range_values_ = []
      ∧ (RegisterDexFile kDexFileAccessTracking policy dex_file log m).2.2.calls
          = m.calls ++
            (SetDexSections kDexFileAccessTracking policy ⟨dex_file, []⟩
              log).1.range_values_.map callOf := by
  unfold RegisterDexFile SetCurrentRanges
  refine ⟨loop_queue _ _, ?_⟩
  simp only [loop_calls]
  rfl

/-- C17: loop invariant of `SetCurrentRanges`. For a queue `q` and `k ≤ q.length`, after `k`
iterations of the drain loop the primitive calls added to the trace are those of the first
`k` entries of `q`, in order, and the remaining queue is `q` without its first `k` entries;
the whole run of `SetCurrentRanges` is the state after `q.length` iterations. -/
theorem C17_drain_loop_invariant (r : DexFileTrackingRegistrar) (m : MemoryTool) (k : Nat)
    (hk : k ≤ r.range_values_.length) :
    (SetCurrentRanges.iterations k r.range_values_ m).1 = r.range_values_.drop k
      ∧ (SetCurrentRanges.iterations k r.range_values_ m).2.calls
          = m.calls ++ (r.range_values_.take k).map callOf
      ∧ SetCurrentRanges r m
          = (⟨r.dex_file_,
              (SetCurrentRanges.iterations r.range_values_.length r.range_values_ m).1⟩,
             (SetCurrentRanges.iterations r.range_values_.length r.range_values_ m).2) := by
  have h := iterations_spec r.range_values_ m k hk
  refine ⟨h.1, ?_, ?_⟩
  · rw [h.2, loop_calls]
    rfl
  · unfold SetCurrentRanges
    rw [loop_eq_iterations]

/-- Witness of C17: a queue of three entries after two iterations. -/
theorem C17_drain_loop_invariant_witness :
    (2 ≤ ([(4200, 40, true), (4216, 20, false), (4200, 40, false)] : RangeValues).length)
      ∧ ((SetCurrentRanges.iterations 2
            [(4200, 40, true), (4216, 20, false), (4200, 40, false)] freshAccessible).1
          = ([(4200, 40, true), (4216, 20, false), (4200, 40, false)] : RangeValues).drop 2
        ∧ (SetCurrentRanges.iterations 2
            [(4200, 40, true), (4216, 20, false), (4200, 40, false)] freshAccessible).2.calls
          = freshAccessible.calls
            ++ (([(4200, 40, true), (4216, 20, false), (4200, 40, false)] :
                  RangeValues).take 2).map callOf
        ∧ SetCurrentRanges ⟨none, [(4200, 40, true), (4216, 20, false), (4200, 40, false)]⟩
            freshAccessible
          = (⟨none,
              (SetCurrentRanges.iterations
                ([(4200, 40, true), (4216, 20, false), (4200, 40, false)] : RangeValues).length
                [(4200, 40, true), (4216, 20, false), (4200, 40, false)] freshAccessible).1⟩,
             (SetCurrentRanges.iterations
                ([(4200, 40, true), (4216, 20, false), (4200, 40, false)] : RangeValues).length
                [(4200, 40, true), (4216, 20, false), (4200, 40, false)] freshAccessible).2)) :=
  ⟨by decide,
    C17_drain_loop_invariant ⟨none, [(4200, 40, true), (4216, 20, false), (4200, 40, false)]⟩
      freshAccessible 2 (by decide)⟩

/-- C18: name-only matching. For a non-null container `SetCodeItemRegistration` appends, in
traversal order, exactly one entry (block start, block size, should_poison) for every
traversed method that has a non-null code block and whose name equals the given name, and
nothing for any other method; the owning class is not consulted. -/
theorem C18_name_only_matching (d : DexFile) (class_name : String) (should_poison : Bool)
    (q : RangeValues) :
    SetCodeItemRegistration d class_name should_poison q
      = q ++ d.traversedMethods.filterMap (fun m =>
          if d.GetMethodName m.method_idx = class_name then
            m.code_item.map (fun c => (c.addr, c.code_item_size, should_poison))
          else none) := by
  rw [SetCodeItemRegistration_eq, flatMap_namedEntry]

/-- Layout of the queue of the all-code-blocks-except-instructions policy as the code
computes it: the `k` poisoned whole-block entries followed by `k` unpoisoned entries, both
in traversal order; the i-th unpoisoned entry starts at the instruction array of the block
of the i-th poisoned entry and has the 32-bit product `insns_size` as its length. -/
theorem nonInsns_queue_layout (d : DexFile) (log : List String) :
    (SetDexSections true .kCodeItemNonInsnsTracking ⟨some d, []⟩ log).1.range_values_
        = d.traversedCodeItems.map (fun c => (c.addr, c.code_item_size, true))
          ++ d.traversedCodeItems.map (fun c => (c.insns_, insns_size c, false))
      ∧ ((SetDexSections true .kCodeItemNonInsnsTracking ⟨some d, []⟩ log).1.range_values_).take
            d.traversedCodeItems.length
          = d.traversedCodeItems.map (fun c => (c.addr, c.code_item_size, true))
      ∧ ((SetDexSections true .kCodeItemNonInsnsTracking ⟨some d, []⟩ log).1.range_values_).drop
            d.traversedCodeItems.length
          = d.traversedCodeItems.map (fun c => (c.insns_, insns_size c, false)) := by
  have h : (SetDexSections true .kCodeItemNonInsnsTracking ⟨some d, []⟩ log).1.range_values_
      = d.traversedCodeItems.map (fun c => (c.addr, c.code_item_size, true))
        ++ d.traversedCodeItems.map (fun c => (c.insns_, insns_size c, false)) := by
    rw [collect_nonInsnsTracking, flatMap_codeItemEntry, flatMap_insnsEntry]
    rfl
  refine ⟨h, ?_, ?_⟩
  · rw [h, List.take_left' (by simp)]
  · rw [h, List.drop_left' (by simp)]

theorem withClinit_outside_clinit :
    ∀ m ∈ withClinit.traversedMethods, ∀ c, m.code_item = some c →
      withClinit.GetMethodName m.method_idx = "<clinit>" →
      ¬ InRange 4310 c.addr c.code_item_size := by
  have ht : withClinit.traversedMethods
      = [⟨0, some ⟨4200, 40, 4216, 10⟩⟩, ⟨1, some ⟨4300, 64, 4316, 20⟩⟩] := by decide
  rw [ht]
  intro m hm c hc hn
  simp only [List.mem_cons, List.mem_singleton, List.not_mem_nil, or_false] at hm
  rcases hm with rfl | rfl
  · simp only [Option.some.injEq] at hc
    subst hc
    simp only [InRange]
    omega
  · exact absurd hn (by decide)

/-- C20: frame of the named exemption. For a non-null container, either tracking setting
and any memory tool state: a byte that lies in no code block of a traversed method named
`<clinit>` has the same shadow state after `SetCurrentRanges` has applied the queue of the
named-exemption policy as after it has applied the queue of the
all-code-blocks-except-instructions policy. -/
theorem C20_named_exemption_frame (kDexFileAccessTracking : Bool) (d : DexFile)
    (log : List String) (m0 : MemoryTool) (a : Nat)
    (ha : ∀ m ∈ d.traversedMethods, ∀ c, m.code_item = some c →
      d.GetMethodName m.method_idx = "<clinit>" → ¬ InRange a c.addr c.code_item_size) :
    (SetCurrentRanges
        (SetDexSections kDexFileAccessTracking .kCodeItemNonInsnsNoClinitTracking ⟨some d, []⟩
          log).1 m0).2.accessible a
      = (SetCurrentRanges
          (SetDexSections kDexFileAccessTracking .kCodeItemNonInsnsTracking ⟨some d, []⟩
            log).1 m0).2.accessible a := by
  cases kDexFileAccessTracking with
  | false => rfl
  | true =>
    have hq : (SetDexSections true .kCodeItemNonInsnsNoClinitTracking ⟨some d, []⟩
        log).1.range_values_
        = (SetDexSections true .kCodeItemNonInsnsTracking ⟨some d, []⟩ log).1.range_values_
          ++ SetCodeItemRegistration d "<clinit>" false [] := by
      rw [collect_noClinitTracking, collect_nonInsnsTracking, SetCodeItemRegistration_eq]
      simp
    unfold SetCurrentRanges
    rw [hq, loop_append]
    apply loop_unpoison_outside _ (namedEntry_unpoisoned d "<clinit>")
    intro e he hin
    rw [SetCodeItemRegistration_eq, List.nil_append, List.mem_flatMap] at he
    obtain ⟨x, hx, hex⟩ := he
    unfold namedEntry at hex
    cases hc : x.code_item with
    | none => simp [hc] at hex
    | some c =>
      by_cases hn : d.method_names x.method_idx = "<clinit>"
      · simp [hc, hn] at hex
        subst hex
        exact ha x hx c hc hn hin
      · simp [hc, hn] at hex

/-- Witness of C20: byte 4310 of `withClinit`, inside the block of the method `run` and
outside the block of the class initializer. -/
theorem C20_named_exemption_frame_witness :
    (∀ m ∈ withClinit.traversedMethods, ∀ c, m.code_item = some c →
        withClinit.GetMethodName m.method_idx = "<clinit>" →
        ¬ InRange 4310 c.addr c.code_item_size)
      ∧ (SetCurrentRanges
          (SetDexSections true .kCodeItemNonInsnsNoClinitTracking ⟨some withClinit, []⟩ []).1
          freshAccessible).2.accessible 4310
        = (SetCurrentRanges
            (SetDexSections true .kCodeItemNonInsnsTracking ⟨some withClinit, []⟩ []).1
            freshAccessible).2.accessible 4310 :=
  ⟨withClinit_outside_clinit,
    C20_named_exemption_frame true withClinit [] freshAccessible 4310
      withClinit_outside_clinit⟩

/-! ## Claims on the instruction entries -/

/-- Below `2 ^ 31` units in every traversed code block, the queue of the
all-code-blocks-except-instructions policy is the poisoned block entries followed by the
unpoisoned entries `(insns_, 2 * units, false)`, in traversal order. -/
theorem nonInsns_queue_layout_exact (d : DexFile) (log : List String)
    (h : ∀ c ∈ d.traversedCodeItems, c.insns_size_in_code_units_ < 2 ^ 31) :
    (SetDexSections true .kCodeItemNonInsnsTracking ⟨some d, []⟩ log).1.range_values_
      = d.traversedCodeItems.map (fun c => (c.addr, c.code_item_size, true))
        ++ d.traversedCodeItems.map
            (fun c => (c.insns_, 2 * c.insns_size_in_code_units_, false)) := by
  rw [(nonInsns_queue_layout d log).1]
  congr 1
  apply List.map_congr_left
  intro c hc
  rw [insns_size_exact c (h c hc)]

/-- C8 at its failing input: `wideInsns` has one traversed code block, whose instruction
array has `2 ^ 31` units, that is `2 * 2 ^ 31` bytes. The queue collected under the
all-code-blocks-except-instructions policy has two entries, but the unpoisoned one has
length 0: the entry (instruction-array address, instruction byte length, false) is not in
the queue. -/
theorem C8_insns_entry_length_wraps :
    wideInsns.traversedCodeItems = [⟨4200, 4294967312, 4216, 2147483648⟩]
      ∧ (SetDexSections true .kCodeItemNonInsnsTracking ⟨some wideInsns, []⟩
            []).1.range_values_
          = [(4200, 4294967312, true), (4216, 0, false)]
      ∧ ((4216, 2 * 2147483648, false) : RangeValue)
          ∉ (SetDexSections true .kCodeItemNonInsnsTracking ⟨some wideInsns, []⟩
              []).1.range_values_ := by
  decide

/-- C10 at its failing input: in `wideInsns` the only traversed code block is
`[4200, 4200 + 4294967312)` and its instruction sub-range `[4216, 4216 + 2 * 2 ^ 31)` lies
inside it, so the conditions of the claim hold; byte 4216 lies in the instruction sub-range
and in the block, yet it is no-access after `SetCurrentRanges` has applied the collected
queue to a memory tool whose shadow marked every byte accessible. -/
theorem C10_insns_bytes_left_poisoned :
    (∀ c1 ∈ wideInsns.traversedCodeItems, ∀ c2 ∈ wideInsns.traversedCodeItems, c1 ≠ c2 →
        ∀ x, ¬ (InRange x c1.addr c1.code_item_size ∧ InRange x c2.addr c2.code_item_size))
      ∧ (∀ c ∈ wideInsns.traversedCodeItems, ∀ x,
          InRange x c.insns_ (2 * c.insns_size_in_code_units_)
            → InRange x c.addr c.code_item_size)
      ∧ (⟨4200, 4294967312, 4216, 2147483648⟩ : CodeItem) ∈ wideInsns.traversedCodeItems
      ∧ InRange 4216 4200 4294967312
      ∧ InRange 4216 4216 (2 * 2147483648)
      ∧ (SetCurrentRanges
          (SetDexSections true .kCodeItemNonInsnsTracking ⟨some wideInsns, []⟩ []).1
          freshAccessible).2.accessible 4216 = false := by
  have ht : wideInsns.traversedCodeItems = [⟨4200, 4294967312, 4216, 2147483648⟩] := by
    decide
  refine ⟨?_, ?_, by decide, by decide, by decide, by decide⟩
  · rw [ht]
    intro c1 h1 c2 h2 hne
    simp only [List.mem_singleton] at h1 h2
    exact absurd (h1.trans h2.symm) hne
  · rw [ht]
    intro c hc x
    simp only [List.mem_singleton] at hc
    subst hc
    simp only [InRange]
    omega

/-- C19 at its failing input: for `wideInsns` (one traversed code block, `k = 1`) the queue
collected under the all-code-blocks-except-instructions policy is the poisoned block entry
followed by one unpoisoned entry, but that entry, `(4216, 0, false)`, is not the
instruction sub-range `(4216, 2 * 2 ^ 31, false)` of the block named by the poisoned
entry. -/
theorem C19_insns_entry_not_sub_range :
    ((SetDexSections true .kCodeItemNonInsnsTracking ⟨some wideInsns, []⟩
          []).1.range_values_).take wideInsns.traversedCodeItems.length
        = [(4200, 4294967312, true)]
      ∧ ((SetDexSections true .kCodeItemNonInsnsTracking ⟨some wideInsns, []⟩
          []).1.range_values_).drop wideInsns.traversedCodeItems.length
        = [(4216, 0, false)]
      ∧ ((SetDexSections true .kCodeItemNonInsnsTracking ⟨some wideInsns, []⟩
          []).1.range_values_).drop wideInsns.traversedCodeItems.length
        ≠ wideInsns.traversedCodeItems.map
            (fun c => (c.insns_, 2 * c.insns_size_in_code_units_, false)) := by
  decide

end DexTracking
